import Mathlib

/-!
Verification development for the btsnoop-extcap capture plugin.

The Rust sources embedded here are src/btsnoop-extcap/src/adb.rs and
src/btsnoop-extcap/src/main.rs. Bytes are modelled as natural numbers
(each byte value is below 256 in any well-formed stream; the functions
below only compare and concatenate bytes, so no width reduction is
needed). Byte strings are lists of naturals. Fallible operations return
Except values; external process invocations are modelled by environments
recording the outcome of each spawned command.

Parts of the repository that the workspace does not provide as source
(the btsnoop record-format crate, the btsnoop_ext direction classifier
module, and the rust-extcap control/reader utilities) are modelled from
the specification text; each such definition carries a doc comment
starting with "Modelled from the spec".
-/

/-- Converts an ASCII string literal to the byte list it denotes, used to
write byte-string constants such as the literal b"0" from the source. -/
def bytesOfAscii (s : String) : List Nat :=
  s.toList.map Char.toNat

/-- Embeds Rust u8::is_ascii_whitespace: space, tab, line feed, form feed
and carriage return. -/
def isAsciiWhitespaceByte (b : Nat) : Bool :=
  b == 0x20 || b == 0x09 || b == 0x0A || b == 0x0C || b == 0x0D

/-- Embeds trim_end from adb.rs (lines 24 to 29): Rust finds the last
position whose byte is not ASCII whitespace (Iterator::rposition) and
keeps the prefix through that position, returning the empty slice when
every byte is whitespace. Equivalently, the maximal whitespace suffix is
removed, which is the form written here. -/
def trim_end (input : List Nat) : List Nat :=
  (input.reverse.dropWhile isAsciiWhitespaceByte).reverse

/-- Mirror of the trim_end_test unit test in adb.rs. -/
theorem trim_end_test :
    trim_end (bytesOfAscii "hi") = bytesOfAscii "hi" ∧
    trim_end (bytesOfAscii "hi\n") = bytesOfAscii "hi" ∧
    trim_end (bytesOfAscii "hi\r\n") = bytesOfAscii "hi" ∧
    trim_end (bytesOfAscii "\r\n") = bytesOfAscii "" := by
  decide

/-- Embeds the BtsnoopLogMode enum from adb.rs. -/
inductive BtsnoopLogMode
  | Disabled
  | Filtered
  | Full
deriving DecidableEq, Repr

/-- Embeds the (uninhabited) BtsnoopLogSettings enum from adb.rs, which
only serves as a namespace for its associated functions. -/
inductive BtsnoopLogSettings
deriving DecidableEq

/-- Embeds the error type used by I/O style failures; the single
constructor stands for std::io::Error values such as UnexpectedEof. -/
inductive IoErr
  | unexpectedEof
deriving DecidableEq, Repr

/-- Embeds BtsnoopLogSettings::mode from adb.rs (lines 227 to 239),
viewed as a function of the stdout bytes produced by the getprop query
(the spawn itself having succeeded). The anyhow result type is modelled
by Except IoErr. Every stdout value maps to Ok of some mode; the final
catch-all arm returns Ok Disabled. -/
def BtsnoopLogSettings.mode (stdout : List Nat) : Except IoErr BtsnoopLogMode :=
  if trim_end stdout = bytesOfAscii "full" then .ok BtsnoopLogMode.Full
  else if trim_end stdout = bytesOfAscii "filtered" then .ok BtsnoopLogMode.Filtered
  else if trim_end stdout = bytesOfAscii "disabled" then .ok BtsnoopLogMode.Disabled
  else .ok BtsnoopLogMode.Disabled

/-- Embeds the AdbRootError enum from adb.rs. -/
inductive AdbRootError
  | RootDeclined
  | IoError
deriving DecidableEq, Repr

/-- Embeds the RootShell struct from adb.rs; the adb_path and serial
fields are configuration strings that do not affect any verified
behavior and are omitted, leaving the needs_su escalation flag. -/
structure RootShell where
  needs_su : Bool
deriving DecidableEq, Repr

/-- Models the outcome of spawning an external command and waiting for
it: either an I/O failure of spawn or wait, or success together with the
bytes the command produced on stdout. -/
inductive SpawnResult
  | ioError
  | ok (stdout : List Nat)
deriving DecidableEq, Repr

/-- Environment for the root negotiation in adb.rs: the outcomes of the
three commands it may spawn, in program order. -/
structure AdbEnv where
  /-- Outcome of the best-effort adb root request (stdout is discarded
  by the source, but spawn or wait failure propagates). -/
  adbRoot : SpawnResult
  /-- Outcome of the direct id -u effective-user-id query. -/
  idQuery : SpawnResult
  /-- Outcome of the su -c id -u query through the elevation wrapper. -/
  suIdQuery : SpawnResult
deriving DecidableEq, Repr

/-- Embeds the root function from adb.rs (lines 80 to 120): best-effort
adb root, then the direct uid query; when its trimmed output differs
from the byte string 0, the wrapped query decides between the su-based
shell and RootDeclined. -/
def root (env : AdbEnv) : Except AdbRootError RootShell :=
  match env.adbRoot with
  | .ioError => .error AdbRootError.IoError
  | .ok _ =>
    match env.idQuery with
    | .ioError => .error AdbRootError.IoError
    | .ok shell_uid =>
      if trim_end shell_uid ≠ bytesOfAscii "0" then
        match env.suIdQuery with
        | .ioError => .error AdbRootError.IoError
        | .ok su_uid =>
          if trim_end su_uid ≠ bytesOfAscii "0" then .error AdbRootError.RootDeclined
          else .ok { needs_su := true }
      else .ok { needs_su := false }

/-- Big-endian interpretation of a byte list as a natural number. -/
def beBytesToNat (bs : List Nat) : Nat :=
  bs.foldl (fun acc b => acc * 256 + b) 0

/-- Modelled from the spec: the btsnoop crate that declares PacketHeader
is part of the repository but is not provided under src. Section 6 of
the spec fixes the record header layout: original_length(4),
included_length(4), flags(4), drop_count(4), timestamp(8), all
big-endian. The timestamp field holds the raw fixed-epoch microsecond
value before conversion. -/
structure PacketHeader where
  original_length : Nat
  included_length : Nat
  flags : Nat
  drop_count : Nat
  timestamp : Nat
deriving DecidableEq, Repr

/-- Modelled from the spec: the 24-byte record header length used by the
streaming loop in main.rs. -/
def PacketHeader.LENGTH : Nat := 24

/-- Modelled from the spec: PacketHeader::parse decodes the five
fixed-width big-endian fields in order from a 24-byte buffer. On a full
24-byte buffer this nom-based parse cannot fail, matching the unwrap in
main.rs. -/
def PacketHeader.parse (b : List Nat) : PacketHeader :=
  { original_length := beBytesToNat (b.take 4)
    included_length := beBytesToNat ((b.drop 4).take 4)
    flags := beBytesToNat ((b.drop 8).take 4)
    drop_count := beBytesToNat ((b.drop 12).take 4)
    timestamp := beBytesToNat ((b.drop 16).take 8) }

/-- Modelled from the spec: the fixed offset, in microseconds, between
the btsnoop timestamp epoch and the Unix epoch, applied by the timestamp
conversion of the btsnoop crate. -/
def BTSNOOP_EPOCH_OFFSET_MICROS : Nat := 0x00dcddb30f2f8000

/-- Modelled from the spec: PacketHeader::timestamp converts the raw
fixed-epoch microsecond value to a capture-native timestamp by removing
the fixed epoch offset. Natural subtraction truncates at zero for raw
values below the offset; no claim depends on the timestamp value. -/
def PacketHeader.timestampMicros (ph : PacketHeader) : Nat :=
  ph.timestamp - BTSNOOP_EPOCH_OFFSET_MICROS

/-- Modelled from the spec: the Direction enum of the btsnoop_ext module
(declared in main.rs but not provided under src). -/
inductive Direction
  | SentFromHost
  | ReceivedByHost
  | Unknown
deriving DecidableEq, Repr

/-- Modelled from the spec: the direction classifier reads the leading
payload byte as an HCI packet-type indicator and maps the two defined
indicator values to the two known directions; any other value, or an
empty payload, yields Unknown. The two indicator constants are the HCI
command and event packet types. This composes
Direction::parse_from_payload with the unwrap_or(Unknown) applied at the
call site in main.rs. -/
def classifyDirection (payload : List Nat) : Direction :=
  match payload.head? with
  | none => Direction.Unknown
  | some b =>
    if b = 0x01 then Direction.SentFromHost
    else if b = 0x04 then Direction.ReceivedByHost
    else Direction.Unknown

/-- Modelled from the spec: Direction::to_hci_pseudo_header is a fixed
lookup from a direction to a 4-byte pseudo-header for the direction
augmented HCI link-layer type (0 for host-to-controller, 1 for
controller-to-host, with unknown treated as received). -/
def Direction.to_hci_pseudo_header : Direction → List Nat
  | Direction.SentFromHost => [0, 0, 0, 0]
  | Direction.ReceivedByHost => [0, 0, 0, 1]
  | Direction.Unknown => [0, 0, 0, 1]

/-- Embeds the PcapPacket value built in main.rs (lines 103 to 107):
the converted timestamp, the pseudo-header concatenated with the payload
bytes, and the original length adjusted for the 4-byte pseudo-header.
The captured length of the emitted record is the length of data. The
orig_len field is a u32 in pcap_file, so the adjusted length is reduced
modulo 2 to the 32. -/
structure CaptureRecord where
  timestamp : Nat
  data : List Nat
  orig_len : Nat
deriving DecidableEq, Repr

/-- Embeds the capture-record construction of main.rs lines 99 to 107
for one source record. -/
def mkCaptureRecord (ph : PacketHeader) (payload : List Nat) : CaptureRecord :=
  { timestamp := ph.timestampMicros
    data := (classifyDirection payload).to_hci_pseudo_header ++ payload
    orig_len := (ph.original_length + 4) % 4294967296 }

/-- Distinguishes the two output handles touched by the streaming loop:
the process standard output, and the capture fifo file that the pcap
writer serializes records into. -/
inductive SinkTarget
  | processStdout
  | captureFifo
deriving DecidableEq, Repr

/-- Observable output action of one pass of the streaming loop: a
capture record written through the pcap writer, or a flush of one of the
two sinks. -/
inductive SinkEvent
  | writeRecord (r : CaptureRecord)
  | flush (t : SinkTarget)
deriving DecidableEq, Repr

/-- Embeds the record loop of write_pcap_packets in main.rs (lines 85 to
111). Each pass reads a 24-byte record header via try_read_exact
(modelled from the spec for the rust-extcap reader utility: a clean None
only when zero bytes remain, an I/O error when the stream ends inside
the header), reads exactly included_length payload bytes via read_exact
(an I/O error when fewer bytes remain), emits the capture record only
when the elapsed time at that pass exceeds the display delay, and then
flushes the process standard output. The function returns the ordered
list of sink events together with the loop result. The fuel argument
bounds the recursion and is immaterial whenever it is at least the
stream length, since every pass consumes at least 24 bytes. The elapsed
argument gives the observed elapsed time at each loop iteration, and
idx numbers the iterations. -/
def pcapGo (elapsed : Nat → Nat) (delay : Nat) :
    Nat → List Nat → Nat → List SinkEvent × Except IoErr Unit
  | 0, s, _ =>
    if s = [] then ([], .ok ())
    else ([], .error IoErr.unexpectedEof)
  | fuel' + 1, s, idx =>
    if s = [] then ([], .ok ())
    else
      if s.length < PacketHeader.LENGTH then ([], .error IoErr.unexpectedEof)
      else
        let ph := PacketHeader.parse (s.take PacketHeader.LENGTH)
        let rest := s.drop PacketHeader.LENGTH
        if rest.length < ph.included_length then ([], .error IoErr.unexpectedEof)
        else
          let payload := rest.take ph.included_length
          let rest2 := rest.drop ph.included_length
          let iterEvents :=
            (if delay < elapsed idx then
              [SinkEvent.writeRecord (mkCaptureRecord ph payload)]
            else []) ++ [SinkEvent.flush SinkTarget.processStdout]
          let nxt := pcapGo elapsed delay fuel' rest2 (idx + 1)
          (iterEvents ++ nxt.1, nxt.2)

/-- The record loop of write_pcap_packets run on a full stream, with
fuel fixed to the stream length (sufficient because every pass consumes
at least the 24 header bytes). -/
def write_pcap_records (elapsed : Nat → Nat) (delay : Nat) (s : List Nat) :
    List SinkEvent × Except IoErr Unit :=
  pcapGo elapsed delay s.length s 0

/-- Projects the capture records written during a run out of its ordered
event list. -/
def writtenRecords (evs : List SinkEvent) : List CaptureRecord :=
  evs.filterMap fun ev =>
    match ev with
    | SinkEvent.writeRecord r => some r
    | SinkEvent.flush _ => none

/-- Modelled from the spec: the ButtonControl descriptor of the
rust-extcap controls module, reduced to the control number consumed by
the control dispatch in main.rs. -/
structure ButtonControl where
  control_number : Nat
deriving DecidableEq, Repr

/-- Embeds BT_LOGGING_ON_BUTTON from main.rs (control number 0). -/
def BT_LOGGING_ON_BUTTON : ButtonControl := { control_number := 0 }

/-- Embeds BT_LOGGING_OFF_BUTTON from main.rs (control number 1). -/
def BT_LOGGING_OFF_BUTTON : ButtonControl := { control_number := 1 }

/-- Modelled from the spec: inbound control command kinds of the
rust-extcap side channel; the spec lists Set among further kinds, of
which Initialized represents any non-Set command. -/
inductive ControlCommand
  | Initialized
  | Set
deriving DecidableEq, Repr

/-- Modelled from the spec: an inbound control packet carrying a command
kind and a control number. -/
structure ControlPacket where
  command : ControlCommand
  control_number : Nat
deriving DecidableEq, Repr

/-- Identifies the shell command launched through a RootShell. -/
inductive ShellCmd
  | getpropMode
  | setModeCmd (m : BtsnoopLogMode)
  | tailLog
deriving DecidableEq, Repr

deriving instance DecidableEq for Except

/-- Observable step of a capture session outside the byte-level record
loop: a root negotiation with its result, a shell command spawned with
the escalation flag of the shell that runs it, an outbound
affordance-state update, or an outbound text message. -/
inductive Event
  | negotiate (result : Except AdbRootError RootShell)
  | shellExec (needsSu : Bool) (cmd : ShellCmd)
  | sendEnabled (controlNumber : Nat) (enabled : Bool)
  | infoMessage
  | statusMessage
deriving DecidableEq, Repr

/-- Distinguishes the three ways handle_control_packet can finish:
returning Ok, returning a recoverable error through the question-mark
operator, or aborting the process through the panic branch. -/
inductive HandleOutcome
  | ok
  | err
  | aborted
deriving DecidableEq, Repr

/-- Environment for a capture session: outcomes of the adb negotiation
commands, of the set-mode command spawned by the control handler, of the
startup getprop mode query, of the tail spawn, and of the streaming of
the tailed bytes. The outbound control channel is modelled as connected
and healthy. -/
structure SessionEnv where
  adb : AdbEnv
  setModeOk : Bool
  modeQuery : SpawnResult
  tailSpawnOk : Bool
  captureOk : Bool
deriving DecidableEq, Repr

/-- Embeds handle_control_packet from main.rs (lines 115 to 146): a
fresh root negotiation first; then, for a Set command, dispatch on the
control number of the two logging buttons, running the set-mode shell
command and then sending the two affordance updates, and aborting on any
other control number; packets with a non-Set command fall through to
Ok. Returns the ordered event list and the outcome. -/
def handle_control_packet (env : SessionEnv) (pkt : ControlPacket) :
    List Event × HandleOutcome :=
  match root env.adb with
  | .error e => ([Event.negotiate (.error e)], HandleOutcome.err)
  | .ok shell =>
    if pkt.command = ControlCommand.Set then
      if pkt.control_number = BT_LOGGING_ON_BUTTON.control_number then
        let evs := [Event.negotiate (.ok shell),
          Event.shellExec shell.needs_su (ShellCmd.setModeCmd BtsnoopLogMode.Full)]
        if env.setModeOk then
          (evs ++ [Event.sendEnabled BT_LOGGING_ON_BUTTON.control_number false,
            Event.sendEnabled BT_LOGGING_OFF_BUTTON.control_number true], HandleOutcome.ok)
        else (evs, HandleOutcome.err)
      else if pkt.control_number = BT_LOGGING_OFF_BUTTON.control_number then
        let evs := [Event.negotiate (.ok shell),
          Event.shellExec shell.needs_su (ShellCmd.setModeCmd BtsnoopLogMode.Disabled)]
        if env.setModeOk then
          (evs ++ [Event.sendEnabled BT_LOGGING_OFF_BUTTON.control_number false,
            Event.sendEnabled BT_LOGGING_ON_BUTTON.control_number true], HandleOutcome.ok)
        else (evs, HandleOutcome.err)
      else ([Event.negotiate (.ok shell)], HandleOutcome.aborted)
    else ([Event.negotiate (.ok shell)], HandleOutcome.ok)

/-- Embeds the session-level events of print_packets from main.rs (lines
148 to 206), omitting the byte-level record loop which is embedded
separately as write_pcap_records. On the local-file path no negotiation
or mode query happens. On the device path: one root negotiation (an
extra info message and an early return when root is declined), the
getprop mode query through the negotiated shell with the affordance
updates chosen by its decoded result, the tail spawn through the same
shell, and the final status message emitted after the streaming loop
finishes. Returns the event list and whether the function returned
Ok. -/
def print_packets_events (env : SessionEnv) (isLocal : Bool) : List Event × Bool :=
  if isLocal then ([Event.statusMessage], env.captureOk)
  else
    match root env.adb with
    | .error AdbRootError.RootDeclined =>
      ([Event.negotiate (.error AdbRootError.RootDeclined), Event.infoMessage], false)
    | .error AdbRootError.IoError =>
      ([Event.negotiate (.error AdbRootError.IoError)], false)
    | .ok shell =>
      let modeResult : Option BtsnoopLogMode :=
        match env.modeQuery with
        | .ioError => none
        | .ok out =>
          match BtsnoopLogSettings.mode out with
          | .ok m => some m
          | .error _ => none
      let buttonEvs :=
        if modeResult = some BtsnoopLogMode.Full then
          [Event.sendEnabled BT_LOGGING_ON_BUTTON.control_number false,
            Event.sendEnabled BT_LOGGING_OFF_BUTTON.control_number true]
        else
          [Event.sendEnabled BT_LOGGING_OFF_BUTTON.control_number false,
            Event.sendEnabled BT_LOGGING_ON_BUTTON.control_number true,
            Event.statusMessage]
      if env.tailSpawnOk then
        (Event.negotiate (.ok shell) :: Event.shellExec shell.needs_su ShellCmd.getpropMode
          :: buttonEvs
          ++ [Event.shellExec shell.needs_su ShellCmd.tailLog, Event.statusMessage],
          env.captureOk)
      else
        (Event.negotiate (.ok shell) :: Event.shellExec shell.needs_su ShellCmd.getpropMode
          :: buttonEvs ++ [Event.shellExec shell.needs_su ShellCmd.tailLog], false)

/-- Embeds the control loop of the capture step in main.rs (lines 277 to
291): each inbound packet is dispatched to handle_control_packet, and a
non-Ok outcome ends the loop (an error propagates through the
question-mark operator; an abort tears the process down). -/
def control_loop (env : SessionEnv) : List ControlPacket → List Event
  | [] => []
  | pkt :: rest =>
    let h := handle_control_packet env pkt
    match h.2 with
    | HandleOutcome.ok => h.1 ++ control_loop env rest
    | _ => h.1

/-- Events of one capture session: the control loop over the inbound
packets and the capture task, joined by tokio try_join in main.rs. The
two tasks interleave in real time; the claims settled against this model
only count event occurrences or inspect per-task structure, both of
which are independent of the interleaving order, so the session list
fixes one order by concatenation. -/
def session_events (env : SessionEnv) (pkts : List ControlPacket) (isLocal : Bool) :
    List Event :=
  control_loop env pkts ++ (print_packets_events env isLocal).1

/-- Counts the root negotiations in an event list. -/
def negCount (evs : List Event) : Nat :=
  evs.countP fun ev =>
    match ev with
    | Event.negotiate _ => true
    | _ => false

/-- Spec-side description of a source record as a header byte block and
a payload byte block. -/
def RecordWF (rec : List Nat × List Nat) : Prop :=
  rec.1.length = PacketHeader.LENGTH ∧
  rec.2.length = (PacketHeader.parse rec.1).included_length

instance (rec : List Nat × List Nat) : Decidable (RecordWF rec) :=
  inferInstanceAs (Decidable (And _ _))

/-- Serializes a list of source records back into the byte stream the
loop reads. -/
def encodeRecords : List (List Nat × List Nat) → List Nat
  | [] => []
  | (hdr, p) :: rest => hdr ++ (p ++ encodeRecords rest)

/-- Spec-side statement of the event trace the suppression window calls
for: per source record, a capture-record write exactly when the record
arrives after the window, followed by a flush of the process standard
output, with later records unaffected. -/
def expectedEvents (elapsed : Nat → Nat) (delay : Nat) :
    Nat → List (List Nat × List Nat) → List SinkEvent
  | _, [] => []
  | idx, (hdr, p) :: rest =>
    ((if delay < elapsed idx then
      [SinkEvent.writeRecord (mkCaptureRecord (PacketHeader.parse hdr) p)]
    else []) ++ [SinkEvent.flush SinkTarget.processStdout])
      ++ expectedEvents elapsed delay (idx + 1) rest

/-- Spec-side statement of the capture records the suppression window
calls for: exactly the records arriving after the window, translated,
in original stream order. -/
def emittedRecords (elapsed : Nat → Nat) (delay : Nat) :
    Nat → List (List Nat × List Nat) → List CaptureRecord
  | _, [] => []
  | idx, (hdr, p) :: rest =>
    if delay < elapsed idx then
      mkCaptureRecord (PacketHeader.parse hdr) p :: emittedRecords elapsed delay (idx + 1) rest
    else emittedRecords elapsed delay (idx + 1) rest

/-- Spec-side statement that a byte stream ends exactly at a record
boundary: it is a concatenation of complete records, each a 24-byte
header followed by exactly the payload bytes the header declares. -/
inductive AtRecordBoundary : List Nat → Prop
  | nil : AtRecordBoundary []
  | cons (hdr payload rest : List Nat) :
      hdr.length = PacketHeader.LENGTH →
      payload.length = (PacketHeader.parse hdr).included_length →
      AtRecordBoundary rest →
      AtRecordBoundary (hdr ++ (payload ++ rest))

/-- Core characterization of the record loop on a stream of complete
records: it succeeds and produces exactly the expected per-record event
trace, for any sufficient fuel. -/
theorem pcapGo_encode (elapsed : Nat → Nat) (delay : Nat)
    (recs : List (List Nat × List Nat)) (idx fuel : Nat)
    (hwf : ∀ r ∈ recs, RecordWF r)
    (hfuel : (encodeRecords recs).length ≤ fuel) :
    pcapGo elapsed delay fuel (encodeRecords recs) idx =
      (expectedEvents elapsed delay idx recs, Except.ok ()) := by
  induction recs generalizing idx fuel with
  | nil =>
    rcases fuel with _ | fuel' <;> simp [encodeRecords, expectedEvents, pcapGo]
  | cons rec rest ih =>
    obtain ⟨hdr, p⟩ := rec
    have hhdr : hdr.length = PacketHeader.LENGTH := (hwf (hdr, p) (by simp)).1
    have hp : p.length = (PacketHeader.parse hdr).included_length :=
      (hwf (hdr, p) (by simp)).2
    have hlen : (encodeRecords ((hdr, p) :: rest)).length =
        PacketHeader.LENGTH + (p.length + (encodeRecords rest).length) := by
      simp [encodeRecords, hhdr]
    have hne : encodeRecords ((hdr, p) :: rest) ≠ [] := by
      intro h
      rw [h] at hlen
      simp only [List.length_nil, PacketHeader.LENGTH] at hlen
      omega
    obtain ⟨fuel', rfl⟩ : ∃ fuel', fuel = fuel' + 1 := by
      rcases fuel with _ | fuel'
      · rw [hlen] at hfuel
        simp [PacketHeader.LENGTH] at hfuel
      · exact ⟨fuel', rfl⟩
    have hnotshort : ¬ (encodeRecords ((hdr, p) :: rest)).length < PacketHeader.LENGTH := by
      rw [hlen]; omega
    have htake : (encodeRecords ((hdr, p) :: rest)).take PacketHeader.LENGTH = hdr := by
      rw [encodeRecords, List.take_left' hhdr]
    have hdrop : (encodeRecords ((hdr, p) :: rest)).drop PacketHeader.LENGTH =
        p ++ encodeRecords rest := by
      rw [encodeRecords, List.drop_left' hhdr]
    have hfuel' : (encodeRecords rest).length ≤ fuel' := by
      rw [hlen] at hfuel
      simp [PacketHeader.LENGTH] at hfuel
      omega
    simp only [pcapGo, if_neg hne, if_neg hnotshort, htake, hdrop]
    rw [if_neg (by simp [hp])]
    rw [List.take_left' hp, List.drop_left' hp]
    rw [ih (idx + 1) fuel' (fun r hr => hwf r (List.mem_cons_of_mem _ hr)) hfuel']
    simp [expectedEvents]

/-- Every capture record written by any run of the record loop is the
translation of some header and payload pair whose payload has exactly
the included length the header declares. -/
theorem pcapGo_writeRecord_shape (elapsed : Nat → Nat) (delay : Nat) :
    ∀ (fuel : Nat) (s : List Nat) (idx : Nat) (r : CaptureRecord),
      SinkEvent.writeRecord r ∈ (pcapGo elapsed delay fuel s idx).1 →
      ∃ ph payload, payload.length = ph.included_length ∧ r = mkCaptureRecord ph payload := by
  intro fuel
  induction fuel with
  | zero =>
    intro s idx r hr
    simp [pcapGo, apply_ite] at hr
  | succ fuel' ih =>
    intro s idx r hr
    simp only [pcapGo] at hr
    by_cases hs : s = []
    · rw [if_pos hs] at hr
      simp at hr
    · rw [if_neg hs] at hr
      by_cases hshort : s.length < PacketHeader.LENGTH
      · rw [if_pos hshort] at hr
        simp at hr
      · rw [if_neg hshort] at hr
        by_cases htrunc : (s.drop PacketHeader.LENGTH).length <
            (PacketHeader.parse (s.take PacketHeader.LENGTH)).included_length
        · rw [if_pos htrunc] at hr
          simp at hr
        · rw [if_neg htrunc] at hr
          by_cases hd : delay < elapsed idx
          · rw [if_pos hd] at hr
            simp only [List.cons_append, List.nil_append, List.mem_cons,
              List.mem_append, List.mem_singleton] at hr
            rcases hr with hr | hr | hr
            · refine ⟨PacketHeader.parse (s.take PacketHeader.LENGTH),
                (s.drop PacketHeader.LENGTH).take
                  (PacketHeader.parse (s.take PacketHeader.LENGTH)).included_length,
                ?_, ?_⟩
              · rw [List.length_take]
                exact Nat.min_eq_left (Nat.le_of_not_lt htrunc)
              · injection hr
            · exact absurd hr (by simp)
            · exact ih _ _ _ hr
          · rw [if_neg hd] at hr
            simp only [List.nil_append, List.cons_append, List.mem_cons,
              List.mem_append, List.mem_singleton] at hr
            rcases hr with hr | hr
            · exact absurd hr (by simp)
            · exact ih _ _ _ hr

/-- A run of the record loop returns Ok only when the stream it was
given is a concatenation of complete records. -/
theorem pcapGo_ok_boundary (elapsed : Nat → Nat) (delay : Nat) :
    ∀ (fuel : Nat) (s : List Nat) (idx : Nat),
      s.length ≤ fuel →
      (pcapGo elapsed delay fuel s idx).2 = Except.ok () →
      AtRecordBoundary s := by
  intro fuel
  induction fuel with
  | zero =>
    intro s idx hle _
    have : s = [] := List.length_eq_zero.mp (Nat.le_zero.mp hle)
    rw [this]
    exact AtRecordBoundary.nil
  | succ fuel' ih =>
    intro s idx hle hok
    by_cases hs : s = []
    · rw [hs]; exact AtRecordBoundary.nil
    · simp only [pcapGo] at hok
      rw [if_neg hs] at hok
      by_cases hshort : s.length < PacketHeader.LENGTH
      · rw [if_pos hshort] at hok
        simp at hok
      · rw [if_neg hshort] at hok
        by_cases htrunc : (s.drop PacketHeader.LENGTH).length <
            (PacketHeader.parse (s.take PacketHeader.LENGTH)).included_length
        · rw [if_pos htrunc] at hok
          simp at hok
        · rw [if_neg htrunc] at hok
          set ph := PacketHeader.parse (s.take PacketHeader.LENGTH) with hph
          have hlen24 : PacketHeader.LENGTH = 24 := rfl
          have hsl : PacketHeader.LENGTH ≤ s.length := Nat.le_of_not_lt hshort
          have hrest2 : AtRecordBoundary
              ((s.drop PacketHeader.LENGTH).drop ph.included_length) := by
            refine ih _ (idx + 1) ?_ hok
            simp only [List.length_drop]
            omega
          have hsplit : s = s.take PacketHeader.LENGTH ++
              ((s.drop PacketHeader.LENGTH).take ph.included_length ++
                (s.drop PacketHeader.LENGTH).drop ph.included_length) := by
            rw [List.take_append_drop, List.take_append_drop]
          have htlen : (s.take PacketHeader.LENGTH).length = PacketHeader.LENGTH := by
            rw [List.length_take]
            exact Nat.min_eq_left (Nat.le_of_not_lt hshort)
          have hplen : ((s.drop PacketHeader.LENGTH).take ph.included_length).length =
              (PacketHeader.parse (s.take PacketHeader.LENGTH)).included_length := by
            rw [List.length_take]
            exact Nat.min_eq_left (Nat.le_of_not_lt htrunc)
          rw [hsplit]
          exact AtRecordBoundary.cons _ _ _ htlen hplen hrest2

/-- No run of the record loop ever flushes the capture fifo sink. -/
theorem pcapGo_no_fifo_flush (elapsed : Nat → Nat) (delay : Nat) :
    ∀ (fuel : Nat) (s : List Nat) (idx : Nat),
      SinkEvent.flush SinkTarget.captureFifo ∉ (pcapGo elapsed delay fuel s idx).1 := by
  intro fuel
  induction fuel with
  | zero =>
    intro s idx hmem
    simp [pcapGo, apply_ite] at hmem
  | succ fuel' ih =>
    intro s idx hmem
    simp only [pcapGo] at hmem
    by_cases hs : s = []
    · rw [if_pos hs] at hmem
      simp at hmem
    · rw [if_neg hs] at hmem
      by_cases hshort : s.length < PacketHeader.LENGTH
      · rw [if_pos hshort] at hmem
        simp at hmem
      · rw [if_neg hshort] at hmem
        by_cases htrunc : (s.drop PacketHeader.LENGTH).length <
            (PacketHeader.parse (s.take PacketHeader.LENGTH)).included_length
        · rw [if_pos htrunc] at hmem
          simp at hmem
        · rw [if_neg htrunc] at hmem
          by_cases hd : delay < elapsed idx
          · rw [if_pos hd] at hmem
            simp only [List.cons_append, List.nil_append, List.mem_cons,
              List.mem_append, List.mem_singleton] at hmem
            rcases hmem with hmem | hmem | hmem
            · exact absurd hmem (by simp)
            · exact absurd hmem (by simp)
            · exact ih _ _ hmem
          · rw [if_neg hd] at hmem
            simp only [List.nil_append, List.cons_append, List.mem_cons,
              List.mem_append, List.mem_singleton] at hmem
            rcases hmem with hmem | hmem
            · exact absurd hmem (by simp)
            · exact ih _ _ hmem

/-- The capture records inside the expected event trace are exactly the
expected emitted records. -/
theorem writtenRecords_expectedEvents (elapsed : Nat → Nat) (delay : Nat) :
    ∀ (idx : Nat) (recs : List (List Nat × List Nat)),
      writtenRecords (expectedEvents elapsed delay idx recs) =
        emittedRecords elapsed delay idx recs := by
  intro idx recs
  induction recs generalizing idx with
  | nil => simp [expectedEvents, emittedRecords, writtenRecords]
  | cons rec rest ih =>
    obtain ⟨hdr, p⟩ := rec
    by_cases hd : delay < elapsed idx
    · simp [expectedEvents, emittedRecords, writtenRecords, if_pos hd,
        List.filterMap_append] at ih ⊢
      exact ih (idx + 1)
    · simp [expectedEvents, emittedRecords, writtenRecords, if_neg hd,
        List.filterMap_append] at ih ⊢
      exact ih (idx + 1)

/-- A stream holding a complete record header whose declared included
length exceeds the remaining bytes makes the record loop fail with an
I/O error at that record. -/
theorem write_pcap_records_truncated (elapsed : Nat → Nat) (delay : Nat)
    (hdr rest : List Nat) (hhdr : hdr.length = PacketHeader.LENGTH)
    (htrunc : rest.length < (PacketHeader.parse hdr).included_length) :
    write_pcap_records elapsed delay (hdr ++ rest) =
      ([], Except.error IoErr.unexpectedEof) := by
  have hlen : (hdr ++ rest).length = 24 + rest.length := by
    simp [hhdr, PacketHeader.LENGTH]
  have hne : hdr ++ rest ≠ [] := by
    intro h
    rw [h] at hlen
    simp only [List.length_nil] at hlen
    omega
  have hnotshort : ¬ (hdr ++ rest).length < PacketHeader.LENGTH := by
    simp only [hlen, PacketHeader.LENGTH]
    omega
  obtain ⟨f, hf⟩ : ∃ f, (hdr ++ rest).length = f + 1 := by
    refine ⟨(hdr ++ rest).length - 1, ?_⟩
    rw [hlen]
    omega
  simp only [write_pcap_records, hf]
  simp only [pcapGo]
  rw [if_neg hne, if_neg (hf ▸ hnotshort)]
  rw [List.take_left' hhdr, List.drop_left' hhdr]
  rw [if_pos htrunc]

/-- Every call of the control packet handler performs exactly one root
negotiation, whatever the packet and the outcome. -/
theorem negCount_handle (env : SessionEnv) (pkt : ControlPacket) :
    negCount (handle_control_packet env pkt).1 = 1 := by
  rcases h : root env.adb with e | shell
  · simp [handle_control_packet, h, negCount]
  · simp only [handle_control_packet, h]
    split_ifs <;> simp [negCount]

/-- When every packet of the inbound list is handled with outcome Ok,
the control loop performs one root negotiation per packet. -/
theorem negCount_control_loop (env : SessionEnv) (pkts : List ControlPacket)
    (hok : ∀ p ∈ pkts, (handle_control_packet env p).2 = HandleOutcome.ok) :
    negCount (control_loop env pkts) = pkts.length := by
  induction pkts with
  | nil => simp [control_loop, negCount]
  | cons p rest ih =>
    have hp : (handle_control_packet env p).2 = HandleOutcome.ok := hok p (by simp)
    have hrest : negCount (control_loop env rest) = rest.length :=
      ih (fun q hq => hok q (List.mem_cons_of_mem _ hq))
    simp only [control_loop, hp]
    rw [show negCount ((handle_control_packet env p).1 ++ control_loop env rest) =
      negCount (handle_control_packet env p).1 + negCount (control_loop env rest) from
      List.countP_append _ _ _]
    rw [negCount_handle, hrest]
    simp only [List.length_cons]
    omega

/-- The device path of print_packets performs exactly one root
negotiation, whatever its result; the local path performs none. -/
theorem negCount_print_packets (env : SessionEnv) :
    negCount (print_packets_events env false).1 = 1 ∧
    negCount (print_packets_events env true).1 = 0 := by
  constructor
  · rcases h : root env.adb with e | shell
    · rcases e <;> simp [print_packets_events, h, negCount]
    · simp only [print_packets_events, Bool.false_eq_true, if_false, h]
      split_ifs <;> simp [negCount, List.countP_append, List.countP_cons]
  · simp [print_packets_events, negCount]

/-- Every shell command spawned by the device path of print_packets runs
with the escalation flag of the shell produced by its single
negotiation. -/
theorem print_packets_shell_governed (env : SessionEnv) (su : Bool) (c : ShellCmd)
    (hmem : Event.shellExec su c ∈ (print_packets_events env false).1) :
    ∃ shell, root env.adb = Except.ok shell ∧ su = shell.needs_su := by
  rcases h : root env.adb with e | shell
  · rcases e <;> simp [print_packets_events, h] at hmem
  · refine ⟨shell, rfl, ?_⟩
    simp only [print_packets_events, Bool.false_eq_true, if_false, h] at hmem
    split_ifs at hmem <;> simp at hmem <;> first | assumption | tauto

/-- The head of a dropWhile result never satisfies the predicate. -/
theorem dropWhile_head?_false (p : Nat → Bool) :
    ∀ (l : List Nat) (b : Nat), (l.dropWhile p).head? = some b → p b = false := by
  intro l
  induction l with
  | nil =>
    intro b h
    simp [List.dropWhile] at h
  | cons a l' ih =>
    intro b h
    rw [List.dropWhile_cons] at h
    by_cases hpa : p a = true
    · rw [if_pos hpa] at h
      exact ih b h
    · rw [if_neg hpa] at h
      simp only [List.head?_cons, Option.some.injEq] at h
      subst h
      cases hq : p a
      · rfl
      · exact absurd hq hpa

/-- Dropping while the predicate holds skips over a block on which the
predicate holds everywhere. -/
theorem dropWhile_append_all (p : Nat → Bool) :
    ∀ (l₁ l₂ : List Nat), (∀ b ∈ l₁, p b = true) →
      (l₁ ++ l₂).dropWhile p = l₂.dropWhile p := by
  intro l₁
  induction l₁ with
  | nil =>
    intro l₂ _
    simp
  | cons a l' ih =>
    intro l₂ hall
    rw [List.cons_append, List.dropWhile_cons, if_pos (hall a (by simp))]
    exact ih l₂ (fun b hb => hall b (by simp [hb]))

/-- A list whose head falsifies the predicate is left whole by
dropWhile. -/
theorem dropWhile_of_head_false (p : Nat → Bool) (l : List Nat) (b : Nat)
    (hh : l.head? = some b) (hb : p b = false) : l.dropWhile p = l := by
  cases l with
  | nil => simp at hh
  | cons a l' =>
    simp only [List.head?_cons, Option.some.injEq] at hh
    subst hh
    rw [List.dropWhile_cons, if_neg (by simp [hb])]

/-- Concrete 24-byte record header declaring included length 1 and
original length 0. -/
def sampleHeaderIncl1 : List Nat := [0, 0, 0, 0, 0, 0, 0, 1] ++ List.replicate 16 0

/-- Concrete 24-byte record header declaring included length 0 and
original length 0. -/
def sampleHeaderIncl0 : List Nat := List.replicate 24 0

/-- Concrete two-record source stream: a one-byte payload record
followed by an empty-payload record. -/
def sampleRecs : List (List Nat × List Nat) :=
  [(sampleHeaderIncl1, [2]), (sampleHeaderIncl0, [])]

/-- Concrete 24-byte record header whose original length field holds the
maximal u32 value and whose included length is 0. -/
def overflowHeader : List Nat := [255, 255, 255, 255] ++ List.replicate 20 0

/-- C1: every record whose arrival time since loop start is within the
suppression window is parsed, consumes exactly its declared payload
bytes, and produces no capture record, while every record arriving after
the window is emitted in original stream order, unaffected by the
suppressed records before it: on any stream of complete records the loop
succeeds and the written records are exactly the records whose observed
elapsed time exceeds the delay, translated, in order. -/
theorem suppression_window_correct (elapsed : Nat → Nat) (delay : Nat)
    (recs : List (List Nat × List Nat)) (hwf : ∀ r ∈ recs, RecordWF r) :
    (write_pcap_records elapsed delay (encodeRecords recs)).2 = Except.ok () ∧
    writtenRecords (write_pcap_records elapsed delay (encodeRecords recs)).1 =
      emittedRecords elapsed delay 0 recs := by
  have h := pcapGo_encode elapsed delay recs 0 (encodeRecords recs).length hwf (le_refl _)
  constructor
  · simp only [write_pcap_records]
    rw [h]
  · simp only [write_pcap_records]
    rw [h]
    exact writtenRecords_expectedEvents elapsed delay 0 recs

/-- Witness for C1 on the concrete two-record stream with the identity
elapsed clock and delay 0: the first record (elapsed 0) is suppressed
and the second (elapsed 1) is emitted. -/
theorem suppression_window_correct_witness :
    (∀ r ∈ sampleRecs, RecordWF r) ∧
    ((write_pcap_records (fun i => i) 0 (encodeRecords sampleRecs)).2 = Except.ok () ∧
      writtenRecords (write_pcap_records (fun i => i) 0 (encodeRecords sampleRecs)).1 =
        emittedRecords (fun i => i) 0 0 sampleRecs) :=
  ⟨by decide, suppression_window_correct (fun i => i) 0 sampleRecs (by decide)⟩

/-- C3 counterexample: a record whose original length field holds the
maximal u32 value 4294967295 is written with stored original length 3,
the u32 wrap of 4294967295 + 4, not the claimed 4294967299. -/
theorem capture_record_orig_len_wraps :
    (writtenRecords (write_pcap_records (fun _ => 1) 0 overflowHeader).1).map
        CaptureRecord.orig_len = [3] ∧
    (PacketHeader.parse overflowHeader).original_length + 4 = 4294967299 ∧
    (3 : Nat) ≠ 4294967299 := by
  decide

/-- C3 (amended): every capture record written by the loop is built from
a header and payload pair with payload length equal to the declared
included length, data equal to the 4-byte direction pseudo-header
concatenated with the payload, captured length equal to 4 plus the
payload length, and stored original length equal to the original length
plus 4 reduced modulo 2 to the 32 (u32 wrap-around; equal to the plain
sum whenever original length is below 4294967292). -/
theorem capture_record_shape (elapsed : Nat → Nat) (delay : Nat) (s : List Nat)
    (r : CaptureRecord)
    (hr : r ∈ writtenRecords (write_pcap_records elapsed delay s).1) :
    ∃ (ph : PacketHeader) (payload : List Nat),
      payload.length = ph.included_length ∧
      r.data = (classifyDirection payload).to_hci_pseudo_header ++ payload ∧
      r.data.length = 4 + payload.length ∧
      r.orig_len = (ph.original_length + 4) % 4294967296 := by
  rw [writtenRecords, List.mem_filterMap] at hr
  obtain ⟨ev, hev, heq⟩ := hr
  cases ev with
  | flush t => simp at heq
  | writeRecord r' =>
    simp only [Option.some.injEq] at heq
    subst heq
    obtain ⟨ph, payload, hlen, rfl⟩ :=
      pcapGo_writeRecord_shape elapsed delay s.length s 0 r' hev
    refine ⟨ph, payload, hlen, rfl, ?_, rfl⟩
    cases hcd : classifyDirection payload <;>
      simp [mkCaptureRecord, hcd, Direction.to_hci_pseudo_header] <;>
      omega

/-- Witness for C3 (amended) at the concrete emitted record of the
sample stream. -/
theorem capture_record_shape_witness :
    (mkCaptureRecord (PacketHeader.parse sampleHeaderIncl1) [2] ∈
      writtenRecords (write_pcap_records (fun _ => 1) 0 (encodeRecords sampleRecs)).1) ∧
    ∃ (ph : PacketHeader) (payload : List Nat),
      payload.length = ph.included_length ∧
      (mkCaptureRecord (PacketHeader.parse sampleHeaderIncl1) [2]).data =
        (classifyDirection payload).to_hci_pseudo_header ++ payload ∧
      (mkCaptureRecord (PacketHeader.parse sampleHeaderIncl1) [2]).data.length =
        4 + payload.length ∧
      (mkCaptureRecord (PacketHeader.parse sampleHeaderIncl1) [2]).orig_len =
        (ph.original_length + 4) % 4294967296 :=
  ⟨by decide,
    capture_record_shape (fun _ => 1) 0 (encodeRecords sampleRecs) _ (by decide)⟩

/-- C4: a stream ending after a complete record header whose declared
included length exceeds the remaining bytes fails with an I/O error, and
the loop returns a clean end only when the stream ends exactly at a
record boundary, that is, when it is a concatenation of complete
records. -/
theorem truncated_record_io_error (elapsed : Nat → Nat) (delay : Nat) :
    (∀ hdr rest, hdr.length = PacketHeader.LENGTH →
      rest.length < (PacketHeader.parse hdr).included_length →
      write_pcap_records elapsed delay (hdr ++ rest) =
        ([], Except.error IoErr.unexpectedEof)) ∧
    (∀ s, (write_pcap_records elapsed delay s).2 = Except.ok () →
      AtRecordBoundary s) := by
  constructor
  · intro hdr rest hhdr htrunc
    exact write_pcap_records_truncated elapsed delay hdr rest hhdr htrunc
  · intro s hok
    exact pcapGo_ok_boundary elapsed delay s.length s 0 (le_refl _) hok

/-- Witness for C4: a complete header declaring one payload byte with no
bytes following it makes the loop fail with an I/O error. -/
theorem truncated_record_io_error_witness :
    (sampleHeaderIncl1.length = PacketHeader.LENGTH ∧
      ([] : List Nat).length < (PacketHeader.parse sampleHeaderIncl1).included_length) ∧
    write_pcap_records (fun _ => 1) 0 (sampleHeaderIncl1 ++ []) =
      ([], Except.error IoErr.unexpectedEof) :=
  ⟨by decide,
    (truncated_record_io_error (fun _ => 1) 0).1 sampleHeaderIncl1 [] (by decide) (by decide)⟩

/-- C7 counterexample: on a concrete one-record stream the loop writes a
capture record, flushes the process standard output, and never flushes
the capture fifo sink that the pcap writer writes records into; the
flush the source performs each iteration targets stdout, not the fifo. -/
theorem fifo_flush_counterexample :
    writtenRecords (write_pcap_records (fun _ => 1) 0 sampleHeaderIncl0).1 ≠ [] ∧
    SinkEvent.flush SinkTarget.captureFifo ∉
      (write_pcap_records (fun _ => 1) 0 sampleHeaderIncl0).1 ∧
    SinkEvent.flush SinkTarget.processStdout ∈
      (write_pcap_records (fun _ => 1) 0 sampleHeaderIncl0).1 := by
  decide

/-- C7 (amended): after each record processed, whether or not it was
emitted, the loop flushes the process standard output before the next
record is processed, and the capture fifo sink is never explicitly
flushed by the loop: on streams of complete records the event trace is
exactly one optional record write followed by one stdout flush per
record, and no trace of any run contains a capture fifo flush. -/
theorem per_record_stdout_flush (elapsed : Nat → Nat) (delay : Nat) :
    (∀ recs, (∀ r ∈ recs, RecordWF r) →
      (write_pcap_records elapsed delay (encodeRecords recs)).1 =
        expectedEvents elapsed delay 0 recs) ∧
    (∀ s, SinkEvent.flush SinkTarget.captureFifo ∉
      (write_pcap_records elapsed delay s).1) := by
  constructor
  · intro recs hwf
    have h := pcapGo_encode elapsed delay recs 0 (encodeRecords recs).length hwf (le_refl _)
    simp only [write_pcap_records]
    rw [h]
  · intro s
    exact pcapGo_no_fifo_flush elapsed delay s.length s 0

/-- Witness for C7 (amended) on the concrete two-record stream. -/
theorem per_record_stdout_flush_witness :
    (∀ r ∈ sampleRecs, RecordWF r) ∧
    (write_pcap_records (fun i => i) 0 (encodeRecords sampleRecs)).1 =
      expectedEvents (fun i => i) 0 0 sampleRecs :=
  ⟨by decide, (per_record_stdout_flush (fun i => i) 0).1 sampleRecs (by decide)⟩

/-- Concrete session environment in which every external command
succeeds: the direct uid query answers 0, the mode query answers full,
and the set-mode, tail and streaming steps succeed. -/
def sampleEnv : SessionEnv :=
  { adb :=
      { adbRoot := SpawnResult.ok []
        idQuery := SpawnResult.ok (bytesOfAscii "0\n")
        suIdQuery := SpawnResult.ok [] }
    setModeOk := true
    modeQuery := SpawnResult.ok (bytesOfAscii "full\n")
    tailSpawnOk := true
    captureOk := true }

/-- Concrete inbound Set command for the turn-on control number. -/
def samplePacket : ControlPacket :=
  { command := ControlCommand.Set, control_number := 0 }

/-- Combines countP over the concatenation of two event lists. -/
theorem negCount_append (a b : List Event) :
    negCount (a ++ b) = negCount a + negCount b :=
  List.countP_append _ _ _

/-- C6 counterexample: a device-path session handling a single inbound
control packet performs two root negotiations, one in the capture task
and one in the control handler, refuting at most one per session. -/
theorem negotiation_runs_twice :
    negCount (session_events sampleEnv [samplePacket] false) = 2 ∧
    ¬ negCount (session_events sampleEnv [samplePacket] false) ≤ 1 := by
  decide

/-- C6 (amended): the capture task performs exactly one root negotiation
on the device path and none on the local path, each successfully handled
inbound control packet performs one additional negotiation of its own,
and every shell command of the capture task runs with the escalation
mode of the shell produced by the capture task negotiation. -/
theorem negotiation_per_task (env : SessionEnv) (pkts : List ControlPacket) :
    negCount (print_packets_events env false).1 = 1 ∧
    negCount (print_packets_events env true).1 = 0 ∧
    ((∀ p ∈ pkts, (handle_control_packet env p).2 = HandleOutcome.ok) →
      negCount (session_events env pkts false) = pkts.length + 1) ∧
    (∀ su c, Event.shellExec su c ∈ (print_packets_events env false).1 →
      ∃ shell, root env.adb = Except.ok shell ∧ su = shell.needs_su) := by
  refine ⟨(negCount_print_packets env).1, (negCount_print_packets env).2, ?_, ?_⟩
  · intro hok
    simp only [session_events, negCount_append]
    rw [negCount_control_loop env pkts hok, (negCount_print_packets env).1]
  · exact fun su c hmem => print_packets_shell_governed env su c hmem

/-- Witness for C6 (amended) on the concrete session. -/
theorem negotiation_per_task_witness :
    (∀ p ∈ [samplePacket], (handle_control_packet sampleEnv p).2 = HandleOutcome.ok) ∧
    negCount (session_events sampleEnv [samplePacket] false) = [samplePacket].length + 1 :=
  ⟨by decide, (negotiation_per_task sampleEnv [samplePacket]).2.2.1 (by decide)⟩

/-- C5: handling a Set command for the turn-on control number first
invokes the device mode change to full logging and then emits exactly
two outbound affordance updates in order, turn-on disabled then turn-off
enabled, given that the negotiation and the mode change succeed. -/
theorem turn_on_button_sequence (env : SessionEnv) (shell : RootShell)
    (hroot : root env.adb = Except.ok shell) (hset : env.setModeOk = true) :
    handle_control_packet env
      { command := ControlCommand.Set,
        control_number := BT_LOGGING_ON_BUTTON.control_number } =
      ([Event.negotiate (Except.ok shell),
        Event.shellExec shell.needs_su (ShellCmd.setModeCmd BtsnoopLogMode.Full),
        Event.sendEnabled BT_LOGGING_ON_BUTTON.control_number false,
        Event.sendEnabled BT_LOGGING_OFF_BUTTON.control_number true],
        HandleOutcome.ok) := by
  simp [handle_control_packet, hroot, hset]

/-- Witness for C5 on the concrete session environment. -/
theorem turn_on_button_sequence_witness :
    (root sampleEnv.adb = Except.ok { needs_su := false } ∧
      sampleEnv.setModeOk = true) ∧
    handle_control_packet sampleEnv
      { command := ControlCommand.Set,
        control_number := BT_LOGGING_ON_BUTTON.control_number } =
      ([Event.negotiate (Except.ok { needs_su := false }),
        Event.shellExec false (ShellCmd.setModeCmd BtsnoopLogMode.Full),
        Event.sendEnabled BT_LOGGING_ON_BUTTON.control_number false,
        Event.sendEnabled BT_LOGGING_OFF_BUTTON.control_number true],
        HandleOutcome.ok) :=
  ⟨⟨by decide, by decide⟩,
    turn_on_button_sequence sampleEnv { needs_su := false } (by decide) (by decide)⟩

/-- C8 counterexample: an inbound packet whose command is not Set and
whose control number matches neither button is handled with outcome Ok,
not an abort, refuting the claim that every packet with an unknown
control number aborts. -/
theorem unknown_control_nonset_ok :
    (handle_control_packet sampleEnv
      { command := ControlCommand.Initialized, control_number := 5 }).2 =
        HandleOutcome.ok ∧
    HandleOutcome.ok ≠ HandleOutcome.aborted := by
  decide

/-- C8 (amended): for an inbound Set command whose control number
matches neither the turn-on nor the turn-off button, handling the packet
after a successful negotiation aborts fatally; packets with any other
command never abort, whatever their control number. -/
theorem set_unknown_control_aborts (env : SessionEnv) (pkt : ControlPacket) :
    (∀ shell, root env.adb = Except.ok shell →
      pkt.command = ControlCommand.Set →
      pkt.control_number ≠ BT_LOGGING_ON_BUTTON.control_number →
      pkt.control_number ≠ BT_LOGGING_OFF_BUTTON.control_number →
      (handle_control_packet env pkt).2 = HandleOutcome.aborted) ∧
    (pkt.command ≠ ControlCommand.Set →
      (handle_control_packet env pkt).2 ≠ HandleOutcome.aborted) := by
  constructor
  · intro shell hroot hcmd h0 h1
    simp [handle_control_packet, hroot, hcmd, h0, h1]
  · intro hcmd
    rcases h : root env.adb with e | shell
    · simp [handle_control_packet, h]
    · simp [handle_control_packet, h, hcmd]

/-- Witness for C8 (amended): a Set command with control number 7 aborts
in the concrete session environment. -/
theorem set_unknown_control_aborts_witness :
    (root sampleEnv.adb = Except.ok { needs_su := false } ∧
      (7 : Nat) ≠ BT_LOGGING_ON_BUTTON.control_number ∧
      (7 : Nat) ≠ BT_LOGGING_OFF_BUTTON.control_number) ∧
    (handle_control_packet sampleEnv
      { command := ControlCommand.Set, control_number := 7 }).2 =
        HandleOutcome.aborted :=
  ⟨⟨by decide, by decide, by decide⟩,
    (set_unknown_control_aborts sampleEnv
      { command := ControlCommand.Set, control_number := 7 }).1
      { needs_su := false } (by decide) rfl (by decide) (by decide)⟩

/-- C2: the negotiation returns the direct shell when the trimmed direct
uid query output is the byte string 0; otherwise the su-wrapped shell
when the trimmed wrapped query output is 0; otherwise RootDeclined; and
any spawn or wait failure of the three commands yields IoError. -/
theorem root_negotiation_cases (a u v : List Nat) :
    (∀ w, trim_end u = bytesOfAscii "0" →
      root (AdbEnv.mk (SpawnResult.ok a) (SpawnResult.ok u) w) =
        Except.ok { needs_su := false }) ∧
    (trim_end u ≠ bytesOfAscii "0" → trim_end v = bytesOfAscii "0" →
      root (AdbEnv.mk (SpawnResult.ok a) (SpawnResult.ok u) (SpawnResult.ok v)) =
        Except.ok { needs_su := true }) ∧
    (trim_end u ≠ bytesOfAscii "0" → trim_end v ≠ bytesOfAscii "0" →
      root (AdbEnv.mk (SpawnResult.ok a) (SpawnResult.ok u) (SpawnResult.ok v)) =
        Except.error AdbRootError.RootDeclined) ∧
    (∀ q w, root (AdbEnv.mk SpawnResult.ioError q w) =
      Except.error AdbRootError.IoError) ∧
    (∀ w, root (AdbEnv.mk (SpawnResult.ok a) SpawnResult.ioError w) =
      Except.error AdbRootError.IoError) ∧
    (trim_end u ≠ bytesOfAscii "0" →
      root (AdbEnv.mk (SpawnResult.ok a) (SpawnResult.ok u) SpawnResult.ioError) =
        Except.error AdbRootError.IoError) := by
  refine ⟨?_, ?_, ?_, ?_, ?_, ?_⟩ <;> intros <;> simp_all [root]

/-- Witness for C2: a direct uid answer of 0 followed by a newline
negotiates the direct shell. -/
theorem root_negotiation_cases_witness :
    trim_end (bytesOfAscii "0\n") = bytesOfAscii "0" ∧
    root (AdbEnv.mk (SpawnResult.ok []) (SpawnResult.ok (bytesOfAscii "0\n"))
        (SpawnResult.ok [])) = Except.ok { needs_su := false } :=
  ⟨by decide,
    (root_negotiation_cases [] (bytesOfAscii "0\n") []).1 (SpawnResult.ok []) (by decide)⟩

/-- C9: trim_end removes only a trailing run of ASCII whitespace bytes:
the input splits as the result followed by an all-whitespace suffix, the
result never ends in a whitespace byte, and any split of the input into
a prefix that is empty or ends in a non-whitespace byte followed by an
all-whitespace suffix coincides with the one trim_end computes, so the
result is the longest prefix ending in a non-whitespace byte and every
interior byte is preserved unchanged. -/
theorem trim_end_characterization (s : List Nat) :
    (∃ t, s = trim_end s ++ t ∧ ∀ b ∈ t, isAsciiWhitespaceByte b = true) ∧
    (∀ b, (trim_end s).getLast? = some b → isAsciiWhitespaceByte b = false) ∧
    (∀ p t, s = p ++ t → (∀ b ∈ t, isAsciiWhitespaceByte b = true) →
      (p = [] ∨ ∃ b, p.getLast? = some b ∧ isAsciiWhitespaceByte b = false) →
      p = trim_end s) := by
  refine ⟨?_, ?_, ?_⟩
  · refine ⟨(s.reverse.takeWhile isAsciiWhitespaceByte).reverse, ?_, ?_⟩
    · have h : trim_end s ++ (s.reverse.takeWhile isAsciiWhitespaceByte).reverse = s := by
        rw [trim_end, ← List.reverse_append, List.takeWhile_append_dropWhile,
          List.reverse_reverse]
      exact h.symm
    · intro b hb
      rw [List.mem_reverse] at hb
      exact List.mem_takeWhile_imp hb
  · intro b hb
    rw [trim_end, List.getLast?_reverse] at hb
    exact dropWhile_head?_false _ _ _ hb
  · intro p t hsplit hws hlast
    have hr : s.reverse = t.reverse ++ p.reverse := by
      rw [hsplit, List.reverse_append]
    have hdw : s.reverse.dropWhile isAsciiWhitespaceByte =
        p.reverse.dropWhile isAsciiWhitespaceByte := by
      rw [hr]
      exact dropWhile_append_all _ _ _ (fun b hb => hws b (List.mem_reverse.mp hb))
    rcases hlast with hpe | ⟨b, hbl, hbw⟩
    · subst hpe
      rw [trim_end, hdw]
      simp
    · have hh : p.reverse.head? = some b := by
        rw [List.head?_reverse]
        exact hbl
      rw [trim_end, hdw, dropWhile_of_head_false _ _ _ hh hbw, List.reverse_reverse]

/-- Witness for C9: the byte string hi followed by a carriage return and
newline trims to hi via the uniqueness part. -/
theorem trim_end_characterization_witness :
    (bytesOfAscii "hi\r\n" = bytesOfAscii "hi" ++ bytesOfAscii "\r\n" ∧
      (∀ b ∈ bytesOfAscii "\r\n", isAsciiWhitespaceByte b = true) ∧
      (bytesOfAscii "hi").getLast? = some 105 ∧ isAsciiWhitespaceByte 105 = false) ∧
    bytesOfAscii "hi" = trim_end (bytesOfAscii "hi\r\n") :=
  ⟨⟨by decide, by decide, by decide, by decide⟩,
    (trim_end_characterization (bytesOfAscii "hi\r\n")).2.2 (bytesOfAscii "hi")
      (bytesOfAscii "\r\n") (by decide) (by decide)
      (Or.inr ⟨105, by decide, by decide⟩)⟩

/-- C10: the log-mode query never fails on content: for every stdout
byte string it returns Ok, mapping trimmed output full, filtered and
disabled to the three modes and every other value, the empty output
included, to Disabled. -/
theorem log_mode_query_total (stdout : List Nat) :
    ∃ m, BtsnoopLogSettings.mode stdout = Except.ok m ∧
      (trim_end stdout = bytesOfAscii "full" → m = BtsnoopLogMode.Full) ∧
      (trim_end stdout = bytesOfAscii "filtered" → m = BtsnoopLogMode.Filtered) ∧
      (trim_end stdout = bytesOfAscii "disabled" → m = BtsnoopLogMode.Disabled) ∧
      (trim_end stdout ≠ bytesOfAscii "full" →
        trim_end stdout ≠ bytesOfAscii "filtered" →
        m = BtsnoopLogMode.Disabled) := by
  by_cases h1 : trim_end stdout = bytesOfAscii "full"
  · refine ⟨BtsnoopLogMode.Full, ?_, fun _ => rfl, ?_, ?_, ?_⟩
    · simp only [BtsnoopLogSettings.mode]
      rw [if_pos h1]
    · intro h2
      rw [h1] at h2
      exact absurd h2 (by decide)
    · intro h3
      rw [h1] at h3
      exact absurd h3 (by decide)
    · intro hf _
      exact absurd h1 hf
  · by_cases h2 : trim_end stdout = bytesOfAscii "filtered"
    · refine ⟨BtsnoopLogMode.Filtered, ?_, ?_, fun _ => rfl, ?_, ?_⟩
      · simp only [BtsnoopLogSettings.mode]
        rw [if_neg h1, if_pos h2]
      · intro hf
        exact absurd hf h1
      · intro h3
        rw [h2] at h3
        exact absurd h3 (by decide)
      · intro _ hf2
        exact absurd h2 hf2
    · refine ⟨BtsnoopLogMode.Disabled, ?_, ?_, ?_, fun _ => rfl, fun _ _ => rfl⟩
      · by_cases h3 : trim_end stdout = bytesOfAscii "disabled"
        · simp only [BtsnoopLogSettings.mode]
          rw [if_neg h1, if_neg h2, if_pos h3]
        · simp only [BtsnoopLogSettings.mode]
          rw [if_neg h1, if_neg h2, if_neg h3]
      · intro hf
        exact absurd hf h1
      · intro hf
        exact absurd hf h2

/-- Witness for C10: an unrecognized stdout value maps to Ok Disabled. -/
theorem log_mode_query_total_witness :
    BtsnoopLogSettings.mode (bytesOfAscii "garbage") = Except.ok BtsnoopLogMode.Disabled := by
  obtain ⟨m, hm, _, _, _, hother⟩ := log_mode_query_total (bytesOfAscii "garbage")
  rw [hother (by decide) (by decide)] at hm
  exact hm
